import Mathlib

set_option maxRecDepth 4000

/-!
Verification of the markdown header text splitter
(`textsplitter/markdown_header.go`).

Go strings are modelled as rune lists (`List Char`); `utf8.RuneCountInString`
is then `List.length`.  The commonmark tokenizer is an external collaborator;
its output token sequence is the input of the embedded `SplitText`.  Out of
range indexing (a Go panic) is modelled by returning the context unchanged;
every theorem below only runs the walker on panic-free token sequences.
-/

namespace Md

abbrev GoStr := List Char

def gs (s : String) : GoStr := s.toList

/-- `strings.Split(s, "\n")`. -/
def splitLines : GoStr → List GoStr
  | [] => [[]]
  | c :: rest =>
    match splitLines rest with
    | [] => [[c]]
    | l :: ls => if c = '\n' then [] :: l :: ls else (c :: l) :: ls

/-- Split a chunk into lines, prefix every line with `pre`, and rejoin
(the `strings.Split` / `fmt.Sprintf` / `strings.Join` pattern of the source). -/
def prefixLines (pre : GoStr) (chunk : GoStr) : GoStr :=
  List.intercalate (gs "\n") ((splitLines chunk).map (fun line => pre ++ line))

/-- The token types of `gitlab.com/golang-commonmark/markdown` used by the
splitter; `other` stands for any further concrete token type (Hr, HTMLBlock,
...), tagged so that distinct types stay distinct. -/
inductive Token where
  | headingOpen (hLevel : Nat)
  | headingClose
  | inline (content : GoStr)
  | paragraphOpen
  | paragraphClose
  | blockquoteOpen
  | blockquoteClose
  | bulletListOpen
  | bulletListClose
  | orderedListOpen
  | orderedListClose
  | listItemOpen
  | listItemClose
  | tableOpen
  | tableClose
  | theadOpen
  | theadClose
  | tbodyOpen
  | tbodyClose
  | trOpen
  | trClose
  | thOpen
  | thClose
  | tdOpen
  | tdClose
  | fence (content : GoStr)
  | other (kind : Nat)
  deriving DecidableEq

/-- The `reflect.Type` of a token: its concrete type with payloads erased. -/
inductive TokenKind where
  | headingOpen
  | headingClose
  | inline
  | paragraphOpen
  | paragraphClose
  | blockquoteOpen
  | blockquoteClose
  | bulletListOpen
  | bulletListClose
  | orderedListOpen
  | orderedListClose
  | listItemOpen
  | listItemClose
  | tableOpen
  | tableClose
  | theadOpen
  | theadClose
  | tbodyOpen
  | tbodyClose
  | trOpen
  | trClose
  | thOpen
  | thClose
  | tdOpen
  | tdClose
  | fence
  | other (kind : Nat)
  deriving DecidableEq

def kindOf : Token → TokenKind
  | .headingOpen _ => .headingOpen
  | .headingClose => .headingClose
  | .inline _ => .inline
  | .paragraphOpen => .paragraphOpen
  | .paragraphClose => .paragraphClose
  | .blockquoteOpen => .blockquoteOpen
  | .blockquoteClose => .blockquoteClose
  | .bulletListOpen => .bulletListOpen
  | .bulletListClose => .bulletListClose
  | .orderedListOpen => .orderedListOpen
  | .orderedListClose => .orderedListClose
  | .listItemOpen => .listItemOpen
  | .listItemClose => .listItemClose
  | .tableOpen => .tableOpen
  | .tableClose => .tableClose
  | .theadOpen => .theadOpen
  | .theadClose => .theadClose
  | .tbodyOpen => .tbodyOpen
  | .tbodyClose => .tbodyClose
  | .trOpen => .trOpen
  | .trClose => .trClose
  | .thOpen => .thOpen
  | .thClose => .thClose
  | .tdOpen => .tdOpen
  | .tdClose => .tdClose
  | .fence _ => .fence
  | .other k => .other k

/-- The `closeTypes` map: close operation type for each open operation type;
a kind absent from the map gives `none` (the zero `reflect.Type`). -/
def closeTypes : TokenKind → Option TokenKind
  | .headingOpen => some .headingClose
  | .bulletListOpen => some .bulletListClose
  | .orderedListOpen => some .orderedListClose
  | .paragraphOpen => some .paragraphClose
  | .blockquoteOpen => some .blockquoteClose
  | .listItemOpen => some .listItemClose
  | .fence => some .fence
  | .tableOpen => some .tableClose
  | .theadOpen => some .theadClose
  | .tbodyOpen => some .tbodyClose
  | _ => none

/-- The scanning loop of `indexOfCloseTag`: `sameCount` is incremented on a
token of the open type before the close-type comparison runs. -/
def closeTagScan (openK : TokenKind) (closeK : Option TokenKind) :
    List Token → Nat → Nat → Nat
  | [], idx, _ => idx
  | t :: rest, idx, sameCount =>
    let n := if kindOf t = openK then sameCount + 1 else sameCount
    if closeK = some (kindOf t) then
      if n = 0 then idx
      else closeTagScan openK closeK rest (idx + 1) (n - 1)
    else closeTagScan openK closeK rest (idx + 1) n

/-- `indexOfCloseTag` returns the index of the close tag for the open tag at
`startAt`; when no close tag occurs it returns `tokens.length`. -/
def indexOfCloseTag (tokens : List Token) (startAt : Nat) : Nat :=
  match tokens[startAt]? with
  | none => startAt + 1
  | some t =>
    closeTagScan (kindOf t) (closeTypes (kindOf t))
      (tokens.drop (startAt + 1)) (startAt + 1) 0

/-- The external secondary splitter interface: `SplitText(s)` returns
`([]string, error)`. -/
abbrev SecondSplitter := GoStr → List GoStr × Option GoStr

/-- `markdownContext`. -/
structure MDContext where
  startAt : Nat
  endAt : Nat
  tokens : List Token
  hTitle : GoStr
  hTitlePrepended : Bool
  orderedList : Bool
  bulletList : Bool
  listOrder : Int
  indentLevel : Int
  chunks : List GoStr
  curSnippet : GoStr
  chunkSize : Int
  chunkOverlap : Int
  secondSplitter : SecondSplitter

/-- `clone`: the source copies only `hTitlePrepended`, `indentLevel`,
`orderedList` and the configuration; `hTitle` is commented out and
`bulletList` / `listOrder` are absent, so they take their zero values. -/
def clone (mc : MDContext) (startAt endAt : Nat) : MDContext :=
  let subTokens := (mc.tokens.drop startAt).take (endAt + 1 - startAt)
  { startAt := 0
    endAt := subTokens.length
    tokens := subTokens
    hTitle := []
    hTitlePrepended := mc.hTitlePrepended
    orderedList := mc.orderedList
    bulletList := false
    listOrder := 0
    indentLevel := mc.indentLevel
    chunks := []
    curSnippet := []
    chunkSize := mc.chunkSize
    chunkOverlap := mc.chunkOverlap
    secondSplitter := mc.secondSplitter }

def repeatString : Nat → GoStr → GoStr
  | 0, _ => []
  | n + 1, c => repeatString n c ++ c

/-- Header-title prepending inside the emission loop of `applyToChunks`. -/
def withTitle (hTitle chunk : GoStr) : GoStr :=
  if hTitle = [] then chunk else hTitle ++ gs "\n" ++ chunk

/-- `applyToChunks`. -/
def applyToChunks (mc : MDContext) : MDContext :=
  let pieces :=
    if (mc.curSnippet.length : Int) ≤ mc.chunkSize + mc.chunkOverlap then
      [mc.curSnippet]
    else
      (mc.secondSplitter mc.curSnippet).1
  if pieces.length = 0 ∧ mc.hTitle ≠ [] ∧ mc.hTitlePrepended = false then
    { mc with chunks := mc.chunks ++ [mc.hTitle], hTitlePrepended := true,
              curSnippet := [] }
  else
    let mc1 := pieces.foldl
      (fun acc chunk =>
        if chunk = [] then acc
        else { acc with hTitlePrepended := true,
                        chunks := acc.chunks ++ [withTitle acc.hTitle chunk] }) mc
    { mc1 with curSnippet := [] }

/-- `joinSnippet`. -/
def joinSnippet (mc : MDContext) (snippet : GoStr) : MDContext :=
  if mc.curSnippet = [] then { mc with curSnippet := snippet }
  else if mc.chunkSize ≤ (mc.curSnippet.length + snippet.length : Int) then
    { applyToChunks mc with curSnippet := snippet }
  else
    { mc with curSnippet := mc.curSnippet ++ gs "\n" ++ snippet }

/-- `splitInline` resolves an inline token to its literal content. -/
def splitInline (content : GoStr) : GoStr := content

/-- `onMDHeader`. -/
def onMDHeader (mc : MDContext) : MDContext :=
  let endAt := indexOfCloseTag mc.tokens mc.startAt
  let mc1 :=
    match mc.tokens[mc.startAt]? with
    | some (.headingOpen hLevel) =>
      match mc.tokens[mc.startAt + 1]? with
      | some (.inline content) =>
        let mcA := applyToChunks mc
        { mcA with hTitle := repeatString hLevel (gs "#") ++ gs " " ++ content,
                   hTitlePrepended := false }
      | _ => mc
    | _ => mc
  { mc1 with startAt := endAt + 1 }

/-- `onMDParagraph`: the source calls `mc.splitInline(inline)` and discards
the returned string, so a top-level paragraph only advances the cursor. -/
def onMDParagraph (mc : MDContext) : MDContext :=
  let endAt := indexOfCloseTag mc.tokens mc.startAt
  let mc1 :=
    match mc.tokens[mc.startAt + 1]? with
    | some (.inline content) =>
      let _line := splitInline content
      mc
    | _ => mc
  { mc1 with startAt := endAt + 1 }

/-- `onMDListItemParagraph`. -/
def onMDListItemParagraph (mc : MDContext) : MDContext :=
  let endAt := indexOfCloseTag mc.tokens mc.startAt
  let mc1 :=
    match mc.tokens[mc.startAt + 1]? with
    | some (.inline content) =>
      let line := splitInline content
      let st :=
        if mc.orderedList then
          ({ mc with listOrder := mc.listOrder + 1 },
           gs (toString (mc.listOrder + 1)) ++ gs ". " ++ line)
        else (mc, line)
      let line1 := if st.1.bulletList then gs "- " ++ st.2 else st.2
      joinSnippet st.1 line1
    | _ => mc
  { mc1 with startAt := endAt + 1 }

/-- Header cell extraction loop of `splitTableHeader`
(`ThOpen`/`Inline`/`ThClose` triples after a `TrOpen`). -/
def tableHeaderCells : Nat → List Token → Nat → List GoStr → List GoStr
  | 0, _, _, acc => acc
  | fuel + 1, tokens, pos, acc =>
    match tokens[pos + 1]? with
    | some .thOpen =>
      match tokens[pos + 2]? with
      | some (.inline content) => tableHeaderCells fuel tokens (pos + 3) (acc ++ [content])
      | _ => acc
    | _ => acc

/-- `splitTableHeader`; its final cursor is overwritten by the deferred
`mc.startAt = endAt + 1`, so only the collected cells matter. -/
def splitTableHeader (mc : MDContext) : MDContext × List GoStr :=
  let endAt := indexOfCloseTag mc.tokens mc.startAt
  let headers :=
    match mc.tokens[mc.startAt + 1]? with
    | some .trOpen => tableHeaderCells (mc.tokens.length + 1) mc.tokens (mc.startAt + 1) []
    | _ => []
  ({ mc with startAt := endAt + 1 }, headers)

/-- Row cell extraction loop of `splitTableBody`; returns the cells and the
cursor position after the inner loop. -/
def tableRowCells : Nat → List Token → Nat → List GoStr → List GoStr × Nat
  | 0, _, pos, acc => (acc, pos)
  | fuel + 1, tokens, pos, acc =>
    match tokens[pos + 1]? with
    | some .tdOpen =>
      match tokens[pos + 2]? with
      | some (.inline content) => tableRowCells fuel tokens (pos + 3) (acc ++ [content])
      | _ => (acc, pos + 2)
    | _ => (acc, pos)

/-- Row extraction loop of `splitTableBody`. -/
def tableBodyRows : Nat → List Token → Nat → List (List GoStr) → List (List GoStr)
  | 0, _, _, acc => acc
  | fuel + 1, tokens, pos, acc =>
    match tokens[pos + 1]? with
    | some .trOpen =>
      let cellsPos := tableRowCells (tokens.length + 1) tokens (pos + 1) []
      tableBodyRows fuel tokens (cellsPos.2 + 1) (acc ++ [cellsPos.1])
    | _ => acc

/-- `splitTableBody`. -/
def splitTableBody (mc : MDContext) : MDContext × List (List GoStr) :=
  let endAt := indexOfCloseTag mc.tokens mc.startAt
  let rows := tableBodyRows (mc.tokens.length + 1) mc.tokens mc.startAt []
  ({ mc with startAt := endAt + 1 }, rows)

/-- The pipe-delimited row rendering loop (`"| %s "` per cell, a final
`"|"` on the last cell). -/
def rowMD : List GoStr → GoStr
  | [] => []
  | [h] => gs "| " ++ h ++ gs " |"
  | h :: h2 :: rest => gs "| " ++ h ++ gs " " ++ rowMD (h2 :: rest)

/-- The separator row rendering loop (`"| --- "` per column, a final
`"|"` on the last one). -/
def sepMD : Nat → GoStr
  | 0 => []
  | 1 => gs "| --- |"
  | n + 2 => gs "| --- " ++ sepMD (n + 1)

def headerBlockMD (header : List GoStr) : GoStr :=
  rowMD header ++ gs "\n" ++ sepMD header.length

/-- `splitTableRows`. -/
def splitTableRows (mc : MDContext) (header : List GoStr)
    (bodies : List (List GoStr)) : MDContext :=
  let headnoteEmpty := header.any (fun h => !h.isEmpty)
  let hb :=
    if !headnoteEmpty && !bodies.isEmpty then (bodies.headD [], bodies.tail)
    else (header, bodies)
  let headerMD := headerBlockMD hb.1
  if hb.2.isEmpty then
    applyToChunks (joinSnippet mc headerMD)
  else
    hb.2.foldl (fun acc row =>
      applyToChunks (joinSnippet acc (headerMD ++ gs "\n" ++ rowMD row))) mc

/-- `onMDTable`. -/
def onMDTable (mc : MDContext) : MDContext :=
  let endAt := indexOfCloseTag mc.tokens mc.startAt
  let mc1 :=
    match mc.tokens[mc.startAt + 1]? with
    | some .theadOpen =>
      let mcA := { mc with startAt := mc.startAt + 1 }
      let hd := splitTableHeader mcA
      let bd := splitTableBody hd.1
      splitTableRows bd.1 hd.2 bd.2
    | _ => mc
  { mc1 with startAt := endAt + 1 }

mutual

/-- The dispatch loop of `splitText`.  Fuel only bounds the recursion depth
of the embedding (the Go loop needs none); `splitFuel` below always
suffices for the inputs of the theorems. -/
def splitLoop : Nat → MDContext → MDContext
  | 0, mc => mc
  | fuel + 1, mc =>
    if mc.startAt < mc.endAt then
      match mc.tokens[mc.startAt]? with
      | none => mc
      | some t =>
        let mc1 :=
          match t with
          | .headingOpen _ => onMDHeader mc
          | .tableOpen => onMDTable mc
          | .paragraphOpen => onMDParagraph mc
          | .blockquoteOpen => onMDQuote fuel mc
          | .bulletListOpen => onMDBulletList fuel mc
          | .orderedListOpen => onMDOrderedList fuel mc
          | .listItemOpen => onListItem fuel mc
          | _ => { mc with startAt := indexOfCloseTag mc.tokens mc.startAt + 1 }
        splitLoop fuel mc1
    else mc

/-- `onMDQuote`: the source resets the sub-context header
(`tmpMC.hTitle = ""`); `clone` already produces an empty title.  The
sub-walk `tmpMC.splitText()` is the loop followed by the final
`applyToChunks`. -/
def onMDQuote : Nat → MDContext → MDContext
  | 0, mc => mc
  | fuel + 1, mc =>
    let endAt := indexOfCloseTag mc.tokens mc.startAt
    let mc1 :=
      match mc.tokens[mc.startAt]? with
      | some .blockquoteOpen =>
        let tmpMC := clone mc (mc.startAt + 1) (endAt - 1)
        let tmpRes := applyToChunks (splitLoop fuel tmpMC)
        let mc2 := tmpRes.chunks.foldl
          (fun acc chunk => joinSnippet acc (prefixLines (gs "> ") chunk)) mc
        applyToChunks mc2
      | _ => mc
    { mc1 with startAt := endAt + 1 }

/-- `onMDBulletList`. -/
def onMDBulletList : Nat → MDContext → MDContext
  | 0, mc => mc
  | fuel + 1, mc =>
    let endAt := indexOfCloseTag mc.tokens mc.startAt
    let mc1 := { mc with indentLevel := mc.indentLevel + 1, bulletList := true,
                         startAt := mc.startAt + 1 }
    let tempMD := clone mc1 mc1.startAt (endAt - 1)
    let tempRes := applyToChunks (splitLoop fuel tempMD)
    let mc2 := tempRes.chunks.foldl
      (fun acc chunk =>
        let chunk1 := if tempRes.indentLevel > 1 then prefixLines (gs "  ") chunk else chunk
        joinSnippet acc chunk1) mc1
    { mc2 with startAt := endAt + 1, indentLevel := mc2.indentLevel - 1,
               bulletList := false, listOrder := 0 }

/-- `onMDOrderedList`. -/
def onMDOrderedList : Nat → MDContext → MDContext
  | 0, mc => mc
  | fuel + 1, mc =>
    let endAt := indexOfCloseTag mc.tokens mc.startAt
    let mc1 := { mc with indentLevel := mc.indentLevel + 1, orderedList := true,
                         startAt := mc.startAt + 1 }
    let tempMD := clone mc1 mc1.startAt (endAt - 1)
    let tempRes := applyToChunks (splitLoop fuel tempMD)
    let mc2 := tempRes.chunks.foldl
      (fun acc chunk =>
        let chunk1 := if tempRes.indentLevel > 1 then prefixLines (gs "  ") chunk else chunk
        joinSnippet acc chunk1) mc1
    { mc2 with startAt := endAt + 1, indentLevel := mc2.indentLevel - 1,
               orderedList := false, listOrder := 0 }

/-- The body loop of `onListItem`. -/
def listItemLoop : Nat → Nat → MDContext → MDContext
  | 0, _, mc => mc
  | fuel + 1, endAt, mc =>
    if mc.startAt < endAt then
      let mc1 :=
        match mc.tokens[mc.startAt]? with
        | some .paragraphOpen => onMDListItemParagraph mc
        | some .bulletListOpen => onMDBulletList fuel mc
        | some .orderedListOpen => onMDOrderedList fuel mc
        | _ => { mc with startAt := mc.startAt + 1 }
      listItemLoop fuel endAt mc1
    else mc

/-- `onListItem`. -/
def onListItem : Nat → MDContext → MDContext
  | 0, mc => mc
  | fuel + 1, mc =>
    let endAt := indexOfCloseTag mc.tokens mc.startAt
    let mc1 := listItemLoop fuel endAt { mc with startAt := mc.startAt + 1 }
    { mc1 with startAt := endAt + 1 }

end

/-- `splitText` on a context: run the dispatch loop, then apply the last
chunk. -/
def splitTextCtx (fuel : Nat) (mc : MDContext) : MDContext :=
  applyToChunks (splitLoop fuel mc)

/-- `MarkdownHeaderTextSplitter` (configuration part). -/
structure MarkdownHeaderTextSplitter where
  chunkSize : Int
  chunkOverlap : Int
  secondSplitter : SecondSplitter

/-- Fuel that always covers the recursion depth of a walk over `tokens`. -/
def splitFuel (tokens : List Token) : Nat :=
  (tokens.length + 1) * (tokens.length + 1)

def initCtx (sp : MarkdownHeaderTextSplitter) (tokens : List Token) : MDContext :=
  { startAt := 0
    endAt := tokens.length
    tokens := tokens
    hTitle := []
    hTitlePrepended := false
    orderedList := false
    bulletList := false
    listOrder := 0
    indentLevel := 0
    chunks := []
    curSnippet := []
    chunkSize := sp.chunkSize
    chunkOverlap := sp.chunkOverlap
    secondSplitter := sp.secondSplitter }

/-- `SplitText`: tokenize (externally), walk, and return `(chunks, nil)` —
the source returns the walker's chunks unchanged with a nil error. -/
def MarkdownHeaderTextSplitter.SplitText (sp : MarkdownHeaderTextSplitter)
    (tokens : List Token) : List GoStr × Option GoStr :=
  ((splitTextCtx (splitFuel tokens) (initCtx sp tokens)).chunks, none)

end Md

namespace Md

/-! Concrete inputs and configurations used by the theorems. -/

/-- A secondary splitter that returns no pieces and no error. -/
def spNone : SecondSplitter := fun _ => ([], none)

/-- A secondary splitter that fails: it returns one piece and an error. -/
def spErr : SecondSplitter := fun _ => ([gs "PIECE"], some (gs "boom"))

/-- A secondary splitter that splits everything into the two pieces
`"p"` and `"q"`. -/
def spTwo : SecondSplitter := fun _ => ([gs "p", gs "q"], none)

/-- The configuration of the repository's tests:
`WithChunkSize(64), WithChunkOverlap(32)`. -/
def cfg64 : MarkdownHeaderTextSplitter := ⟨64, 32, spNone⟩

/-- `chunkSize = 1`, `chunkOverlap = 0`, with the erroring splitter. -/
def cfgErr : MarkdownHeaderTextSplitter := ⟨1, 0, spErr⟩

/-- `chunkSize = 1`, `chunkOverlap = 0`, with the two-piece splitter. -/
def cfgTwo : MarkdownHeaderTextSplitter := ⟨1, 0, spTwo⟩

/-- Token sequence of a document holding only a fenced code block. -/
def fenceOnlyTokens : List Token := [.fence (gs "code")]

/-- Token sequence of the header-only document `"### H"`. -/
def headerOnlyTokens : List Token := [.headingOpen 3, .inline (gs "H"), .headingClose]

/-- Token sequence of `"### H\n\n- a\n- b\n"`. -/
def c4tokens : List Token :=
  [.headingOpen 3, .inline (gs "H"), .headingClose,
   .bulletListOpen,
   .listItemOpen, .paragraphOpen, .inline (gs "a"), .paragraphClose, .listItemClose,
   .listItemOpen, .paragraphOpen, .inline (gs "b"), .paragraphClose, .listItemClose,
   .bulletListClose]

/-- A fenced code block followed by a bullet list holding one item `"x"`. -/
def fenceThenListTokens : List Token :=
  [.fence (gs "c"),
   .bulletListOpen, .listItemOpen, .paragraphOpen, .inline (gs "x"),
   .paragraphClose, .listItemClose, .bulletListClose]

/-- A one-column table with header cell `"h"` and a single body row `"v"`. -/
def smallTableTokens : List Token :=
  [.tableOpen, .theadOpen, .trOpen, .thOpen, .inline (gs "h"), .thClose,
   .trClose, .theadClose,
   .tbodyOpen, .trOpen, .tdOpen, .inline (gs "v"), .tdClose, .trClose,
   .tbodyClose, .tableClose]

/-- A two-column table whose declared header cells are both empty, with a
single body row `a | b`. -/
def blankHeaderTableTokens : List Token :=
  [.tableOpen, .theadOpen, .trOpen,
     .thOpen, .inline [], .thClose,
     .thOpen, .inline [], .thClose,
   .trClose, .theadClose,
   .tbodyOpen,
     .trOpen, .tdOpen, .inline (gs "a"), .tdClose,
             .tdOpen, .inline (gs "b"), .tdClose, .trClose,
   .tbodyClose, .tableClose]

/-- Token sequence of a bullet list that only holds a long item. -/
def longItemListTokens : List Token :=
  [.bulletListOpen, .listItemOpen, .paragraphOpen, .inline (gs "abc"),
   .paragraphClose, .listItemClose, .bulletListClose]

/-- The innermost-to-outermost item spine of the nested bullet list family:
`item 0` is one item with text `"x"`, `item (e+1)` wraps a deeper list. -/
def item : Nat → List Token
  | 0 => [.listItemOpen, .paragraphOpen, .inline (gs "x"), .paragraphClose, .listItemClose]
  | e + 1 => .listItemOpen :: (.bulletListOpen :: item e ++ [.bulletListClose]) ++ [.listItemClose]

/-- A bullet list nested `d` levels deep (`d ≥ 1`) whose innermost item has
text `"x"`. -/
def nest (d : Nat) : List Token := .bulletListOpen :: item (d - 1) ++ [.bulletListClose]

/-- `2*e` spaces followed by `"x"`: the line the innermost item of a list at
nesting depth `e + 1` becomes. -/
def padx (e : Nat) : GoStr := List.replicate (2 * e) ' ' ++ gs "x"

/-- The state of a freshly cloned sub-context over `tokens` at indent level
`lvl` (the shape every clone of the walker produces). -/
def listCtx (tokens : List Token) (lvl : Int) (hp : Bool) (cs co : Int)
    (sp : SecondSplitter) : MDContext :=
  { startAt := 0
    endAt := tokens.length
    tokens := tokens
    hTitle := []
    hTitlePrepended := hp
    orderedList := false
    bulletList := false
    listOrder := 0
    indentLevel := lvl
    chunks := []
    curSnippet := []
    chunkSize := cs
    chunkOverlap := co
    secondSplitter := sp }

/-- A context about to close a non-empty pending snippet under an active
header title. -/
def chunkCloseCtx : MDContext :=
  { initCtx cfg64 [] with hTitle := gs "T", curSnippet := gs "abc" }

end Md

namespace Md

/-! General lemmas about the chunk emitter. -/

/-- The emission loop of `applyToChunks`: it appends exactly the non-empty
pieces, each with the (unchanged) header title prepended, and marks the
title prepended as soon as one piece is non-empty. -/
theorem applyFold_eq (pieces : List GoStr) (mc : MDContext) :
    pieces.foldl
      (fun acc chunk =>
        if chunk = [] then acc
        else { acc with hTitlePrepended := true,
                        chunks := acc.chunks ++ [withTitle acc.hTitle chunk] }) mc
    = { mc with
        hTitlePrepended := mc.hTitlePrepended || pieces.any (fun c => !c.isEmpty),
        chunks := mc.chunks ++ (pieces.filter (fun c => !c.isEmpty)).map (withTitle mc.hTitle) } := by
  induction pieces generalizing mc with
  | nil => simp
  | cons c rest ih =>
    by_cases hc : c = []
    · subst hc
      simp only [List.foldl_cons, if_pos rfl, List.any_cons, List.isEmpty_nil, Bool.not_true,
        Bool.false_or, List.filter_cons, ih]
      simp
    · have hce : c.isEmpty = false := by
        simp [List.isEmpty_iff, hc]
      simp only [List.foldl_cons, if_neg hc, ih, List.any_cons, hce, Bool.not_false,
        Bool.true_or, Bool.or_true, List.filter_cons, List.map_cons]
      simp

/-- Closing a non-empty pending snippet that fits within
`chunkSize + chunkOverlap` emits it as a single chunk. -/
theorem applyToChunks_small (mc : MDContext) (hne : mc.curSnippet ≠ [])
    (hfit : (mc.curSnippet.length : Int) ≤ mc.chunkSize + mc.chunkOverlap) :
    applyToChunks mc
      = { mc with chunks := mc.chunks ++ [withTitle mc.hTitle mc.curSnippet],
                  hTitlePrepended := true, curSnippet := [] } := by
  unfold applyToChunks
  simp only [if_pos hfit]
  rw [if_neg (by simp)]
  simp only [applyFold_eq]
  have hce : mc.curSnippet.isEmpty = false := by simp [List.isEmpty_iff, hne]
  simp [hce, List.filter_cons, hne]

/-- Closing an empty pending snippet (with a non-negative budget) emits
nothing and leaves the header-emitted flag unchanged. -/
theorem applyToChunks_empty (mc : MDContext) (hs : mc.curSnippet = [])
    (hb : (0 : Int) ≤ mc.chunkSize + mc.chunkOverlap) :
    applyToChunks mc = { mc with curSnippet := [] } := by
  have hfit : (mc.curSnippet.length : Int) ≤ mc.chunkSize + mc.chunkOverlap := by
    rw [hs]; simpa using hb
  unfold applyToChunks
  simp only [if_pos hfit]
  rw [if_neg (by simp)]
  simp only [applyFold_eq]
  simp [hs]

/-- Closing an oversized pending snippet runs the secondary splitter and
emits exactly its non-empty pieces (provided it returns at least one piece
at all, so that the header-only special branch does not fire). -/
theorem applyToChunks_oversized (mc : MDContext)
    (hfit : ¬ (mc.curSnippet.length : Int) ≤ mc.chunkSize + mc.chunkOverlap)
    (hp : (mc.secondSplitter mc.curSnippet).1 ≠ []) :
    applyToChunks mc
      = { mc with
          chunks := mc.chunks ++
            (((mc.secondSplitter mc.curSnippet).1.filter (fun c => !c.isEmpty)).map
              (withTitle mc.hTitle)),
          hTitlePrepended := mc.hTitlePrepended ||
            ((mc.secondSplitter mc.curSnippet).1.any (fun c => !c.isEmpty)),
          curSnippet := [] } := by
  unfold applyToChunks
  rw [if_neg hfit]
  rw [if_neg (by simp [List.length_eq_zero, hp])]
  simp only [applyFold_eq]

/-- Joining a fragment into an empty pending snippet just installs it. -/
theorem joinSnippet_empty (mc : MDContext) (hs : mc.curSnippet = []) (s : GoStr) :
    joinSnippet mc s = { mc with curSnippet := s } := by
  unfold joinSnippet
  rw [if_pos hs]

/-- One table-row emission step: join into an empty snippet, then close. -/
theorem emitStep (mc : MDContext) (s : GoStr) (hs : mc.curSnippet = [])
    (hne : s ≠ []) (hfit : (s.length : Int) ≤ mc.chunkSize + mc.chunkOverlap) :
    applyToChunks (joinSnippet mc s)
      = { mc with chunks := mc.chunks ++ [withTitle mc.hTitle s],
                  hTitlePrepended := true, curSnippet := [] } := by
  rw [joinSnippet_empty mc hs s]
  rw [applyToChunks_small _ (by simpa using hne) (by simpa using hfit)]

/-- The row emission fold: starting from an empty pending snippet, each row
becomes exactly one chunk (its rendered snippet with the header title
prepended), in document order. -/
theorem emitFold {α : Type} (f : α → GoStr) (rows : List α) (mc : MDContext)
    (hs : mc.curSnippet = [])
    (h : ∀ row ∈ rows, f row ≠ [] ∧ (((f row).length : Int) ≤ mc.chunkSize + mc.chunkOverlap)) :
    rows.foldl (fun acc row => applyToChunks (joinSnippet acc (f row))) mc
      = { mc with chunks := mc.chunks ++ rows.map (fun row => withTitle mc.hTitle (f row)),
                  hTitlePrepended := mc.hTitlePrepended || !rows.isEmpty,
                  curSnippet := [] } := by
  induction rows generalizing mc with
  | nil =>
    simp only [List.foldl_nil, List.map_nil, List.append_nil, List.isEmpty_nil]
    cases mc
    simp_all
  | cons r rest ih =>
    simp only [List.foldl_cons]
    rw [emitStep mc (f r) hs (h r (by simp)).1 (h r (by simp)).2]
    rw [ih _ rfl (by intro row hrow; simpa using h row (by simp [hrow]))]
    simp

/-! Lemmas about the close-tag search. -/

/-- When the close kind is absent from the pairing table, the scan never
breaks. -/
theorem closeTagScan_none (o : TokenKind) (ts : List Token) (idx n : Nat) :
    closeTagScan o none ts idx n = idx + ts.length := by
  induction ts generalizing idx n with
  | nil => simp [closeTagScan]
  | cons t rest ih =>
    unfold closeTagScan
    simp only [reduceCtorEq, if_false]
    rw [ih]
    simp only [List.length_cons]
    omega

/-- A fence pairs with itself, so the counter is incremented before the
close comparison and the scan never breaks either. -/
theorem closeTagScan_fence (ts : List Token) (idx n : Nat) :
    closeTagScan .fence (some .fence) ts idx n = idx + ts.length := by
  induction ts generalizing idx n with
  | nil => simp [closeTagScan]
  | cons t rest ih =>
    cases t <;> simp [closeTagScan, kindOf, ih] <;> omega

/-- For a token whose kind has no close pairing (or is a fence), the close
search runs to the very end of the token list. -/
theorem indexOfCloseTag_unmatched (tokens : List Token) (startAt : Nat) (t : Token)
    (ht : tokens[startAt]? = some t)
    (hk : closeTypes (kindOf t) = none ∨ kindOf t = .fence) :
    indexOfCloseTag tokens startAt = tokens.length := by
  have hlt : startAt < tokens.length := by
    by_contra hge
    rw [List.getElem?_eq_none (by omega)] at ht
    exact Option.noConfusion ht
  have hdrop : (tokens.drop (startAt + 1)).length = tokens.length - (startAt + 1) := by
    simp
  unfold indexOfCloseTag
  rw [ht]
  show closeTagScan (kindOf t) (closeTypes (kindOf t))
      (tokens.drop (startAt + 1)) (startAt + 1) 0 = tokens.length
  rcases hk with hk | hk
  · rw [hk, closeTagScan_none, hdrop]
    omega
  · rw [hk]
    show closeTagScan .fence (some .fence) (tokens.drop (startAt + 1)) (startAt + 1) 0
        = tokens.length
    rw [closeTagScan_fence, hdrop]
    omega

end Md

namespace Md

theorem item_length (e : Nat) : (item e).length = 4 * e + 5 := by
  induction e with
  | zero => rfl
  | succ e ih => simp [item, ih]; omega

theorem item_succ_eq (e : Nat) :
    item (e + 1) = .listItemOpen :: .bulletListOpen ::
      (item e ++ [.bulletListClose, .listItemClose]) := by
  simp [item]

theorem padx_length (e : Nat) : (padx e).length = 2 * e + 1 := by
  simp [padx, gs]

theorem padx_ne_nil (e : Nat) : padx e ≠ [] := by
  simp [padx, gs]

theorem padx_no_newline (e : Nat) : '\n' ∉ padx e := by
  simp [padx, gs, List.mem_replicate]

theorem splitLines_no_newline (s : GoStr) (h : '\n' ∉ s) : splitLines s = [s] := by
  induction s with
  | nil => rfl
  | cons c rest ih =>
    have hc : c ≠ '\n' := by intro hh; exact h (by simp [hh])
    have hr : '\n' ∉ rest := by intro hh; exact h (by simp [hh])
    unfold splitLines
    rw [ih hr]
    simp [hc]

theorem intercalate_single (sep : GoStr) (x : GoStr) :
    List.intercalate sep [x] = x := by
  simp [List.intercalate]

theorem prefixLines_single (pre s : GoStr) (h : '\n' ∉ s) :
    prefixLines pre s = pre ++ s := by
  simp [prefixLines, splitLines_no_newline s h, intercalate_single]

theorem prefixLines_padx (e : Nat) :
    prefixLines (gs "  ") (padx e) = padx (e + 1) := by
  rw [prefixLines_single _ _ (padx_no_newline e)]
  show List.replicate 2 ' ' ++ (List.replicate (2 * e) ' ' ++ gs "x") = padx (e + 1)
  rw [← List.append_assoc, ← List.replicate_add]
  have : 2 + 2 * e = 2 * (e + 1) := by ring
  rw [this]
  rfl

end Md

namespace Md

/-- Scanning for the close of a `BulletListOpen` passes over a whole item
subtree without breaking and without changing the nesting counter. -/
theorem closeTagScan_bl_item (e : Nat) :
    ∀ (ts : List Token) (idx n : Nat),
      closeTagScan .bulletListOpen (some .bulletListClose) (item e ++ ts) idx n
        = closeTagScan .bulletListOpen (some .bulletListClose) ts (idx + (4 * e + 5)) n := by
  induction e with
  | zero =>
    intro ts idx n
    simp [item, closeTagScan, kindOf]
  | succ e ih =>
    intro ts idx n
    rw [item_succ_eq]
    simp only [List.cons_append, List.append_assoc]
    show closeTagScan .bulletListOpen (some .bulletListClose)
        (.listItemOpen :: .bulletListOpen :: (item e ++ ([.bulletListClose, .listItemClose] ++ ts)))
        idx n = _
    simp only [closeTagScan, kindOf, reduceCtorEq, Option.some.injEq, if_false, if_true]
    rw [ih]
    simp only [closeTagScan, kindOf, reduceCtorEq, Option.some.injEq, if_false, if_true,
      List.nil_append, Nat.add_sub_cancel]
    have h1 : idx + 1 + 1 + (4 * e + 5) + 1 + 1 = idx + (4 * (e + 1) + 5) := by omega
    rw [h1]
    rfl

/-- The same for the close of a `ListItemOpen`. -/
theorem closeTagScan_li_item (e : Nat) :
    ∀ (ts : List Token) (idx n : Nat),
      closeTagScan .listItemOpen (some .listItemClose) (item e ++ ts) idx n
        = closeTagScan .listItemOpen (some .listItemClose) ts (idx + (4 * e + 5)) n := by
  induction e with
  | zero =>
    intro ts idx n
    simp [item, closeTagScan, kindOf]
  | succ e ih =>
    intro ts idx n
    rw [item_succ_eq]
    simp only [List.cons_append, List.append_assoc]
    show closeTagScan .listItemOpen (some .listItemClose)
        (.listItemOpen :: .bulletListOpen :: (item e ++ ([.bulletListClose, .listItemClose] ++ ts)))
        idx n = _
    simp only [closeTagScan, kindOf, reduceCtorEq, Option.some.injEq, if_false, if_true]
    rw [ih]
    simp only [closeTagScan, kindOf, reduceCtorEq, Option.some.injEq, if_false, if_true,
      List.nil_append, Nat.add_sub_cancel]
    have h1 : idx + 1 + 1 + (4 * e + 5) + 1 + 1 = idx + (4 * (e + 1) + 5) := by omega
    rw [h1]
    rfl

end Md

namespace Md

theorem ioct_item_zero (e : Nat) : indexOfCloseTag (item e) 0 = 4 * e + 4 := by
  cases e with
  | zero => decide
  | succ e =>
    have h0 : (item (e + 1))[0]? = some .listItemOpen := by rw [item_succ_eq]; rfl
    have hd : (item (e + 1)).drop 1
        = .bulletListOpen :: (item e ++ [.bulletListClose, .listItemClose]) := by
      rw [item_succ_eq]; rfl
    unfold indexOfCloseTag
    rw [h0]
    show closeTagScan (kindOf .listItemOpen) (closeTypes (kindOf .listItemOpen))
        ((item (e + 1)).drop 1) 1 0 = 4 * (e + 1) + 4
    rw [hd]
    show closeTagScan .listItemOpen (some .listItemClose)
        (.bulletListOpen :: (item e ++ [.bulletListClose, .listItemClose])) 1 0 = 4 * (e + 1) + 4
    simp only [closeTagScan, kindOf, reduceCtorEq, Option.some.injEq, if_false, if_true]
    rw [closeTagScan_li_item]
    simp only [closeTagScan, kindOf, reduceCtorEq, Option.some.injEq, if_false, if_true]
    omega

theorem ioct_item_succ_one (e : Nat) : indexOfCloseTag (item (e + 1)) 1 = 4 * e + 7 := by
  have h1 : (item (e + 1))[1]? = some .bulletListOpen := by rw [item_succ_eq]; simp
  have hd : (item (e + 1)).drop 2 = item e ++ [.bulletListClose, .listItemClose] := by
    rw [item_succ_eq]; rfl
  unfold indexOfCloseTag
  rw [h1]
  show closeTagScan (kindOf .bulletListOpen) (closeTypes (kindOf .bulletListOpen))
      ((item (e + 1)).drop 2) 2 0 = 4 * e + 7
  rw [hd]
  show closeTagScan .bulletListOpen (some .bulletListClose)
      (item e ++ [.bulletListClose, .listItemClose]) 2 0 = 4 * e + 7
  rw [closeTagScan_bl_item]
  simp only [closeTagScan, kindOf, reduceCtorEq, Option.some.injEq, if_false, if_true]
  omega

theorem ioct_item_zero_para : indexOfCloseTag (item 0) 1 = 3 := by decide

theorem nest_eq (e : Nat) :
    nest (e + 1) = .bulletListOpen :: (item e ++ [.bulletListClose]) := by
  simp [nest]

theorem nest_length (e : Nat) : (nest (e + 1)).length = 4 * e + 7 := by
  rw [nest_eq]
  simp [item_length]

theorem ioct_nest (e : Nat) : indexOfCloseTag (nest (e + 1)) 0 = 4 * e + 6 := by
  have h0 : (nest (e + 1))[0]? = some .bulletListOpen := by rw [nest_eq]; simp
  have hd : (nest (e + 1)).drop 1 = item e ++ [.bulletListClose] := by
    rw [nest_eq]; rfl
  unfold indexOfCloseTag
  rw [h0]
  show closeTagScan (kindOf .bulletListOpen) (closeTypes (kindOf .bulletListOpen))
      ((nest (e + 1)).drop 1) 1 0 = 4 * e + 6
  rw [hd]
  show closeTagScan .bulletListOpen (some .bulletListClose)
      (item e ++ [.bulletListClose]) 1 0 = 4 * e + 6
  rw [closeTagScan_bl_item]
  simp only [closeTagScan, kindOf, reduceCtorEq, Option.some.injEq, if_false, if_true]
  omega

end Md

namespace Md

theorem splitLoop_exit (fuel : Nat) (mc : MDContext) (h : ¬ mc.startAt < mc.endAt) :
    splitLoop fuel mc = mc := by
  cases fuel with
  | zero => rfl
  | succ fuel => rw [splitLoop, if_neg h]

theorem splitLoop_succ_listItemOpen (fuel : Nat) (mc : MDContext)
    (hlt : mc.startAt < mc.endAt) (ht : mc.tokens[mc.startAt]? = some .listItemOpen) :
    splitLoop (fuel + 1) mc = splitLoop fuel (onListItem fuel mc) := by
  rw [splitLoop, if_pos hlt, ht]

theorem splitLoop_succ_bulletListOpen (fuel : Nat) (mc : MDContext)
    (hlt : mc.startAt < mc.endAt) (ht : mc.tokens[mc.startAt]? = some .bulletListOpen) :
    splitLoop (fuel + 1) mc = splitLoop fuel (onMDBulletList fuel mc) := by
  rw [splitLoop, if_pos hlt, ht]

theorem listItemLoop_exit (fuel endAt : Nat) (mc : MDContext) (h : ¬ mc.startAt < endAt) :
    listItemLoop fuel endAt mc = mc := by
  cases fuel with
  | zero => rfl
  | succ fuel => rw [listItemLoop, if_neg h]

theorem listItemLoop_succ_paragraphOpen (fuel endAt : Nat) (mc : MDContext)
    (hlt : mc.startAt < endAt) (ht : mc.tokens[mc.startAt]? = some .paragraphOpen) :
    listItemLoop (fuel + 1) endAt mc = listItemLoop fuel endAt (onMDListItemParagraph mc) := by
  rw [listItemLoop, if_pos hlt, ht]

theorem listItemLoop_succ_bulletListOpen (fuel endAt : Nat) (mc : MDContext)
    (hlt : mc.startAt < endAt) (ht : mc.tokens[mc.startAt]? = some .bulletListOpen) :
    listItemLoop (fuel + 1) endAt mc = listItemLoop fuel endAt (onMDBulletList fuel mc) := by
  rw [listItemLoop, if_pos hlt, ht]

theorem onListItem_succ (fuel : Nat) (mc : MDContext) :
    onListItem (fuel + 1) mc
      = { listItemLoop fuel (indexOfCloseTag mc.tokens mc.startAt)
            { mc with startAt := mc.startAt + 1 } with
          startAt := indexOfCloseTag mc.tokens mc.startAt + 1 } := by
  rw [onListItem]

end Md

namespace Md

theorem run_item_zero (fuel : Nat) (lvl : Int) (hp : Bool) (cs co : Int) (sp : SecondSplitter)
    (hfit : ((padx 0).length : Int) ≤ cs + co) :
    applyToChunks (splitLoop (fuel + (4 * 0 + 3)) (listCtx (item 0) lvl hp cs co sp))
      = { listCtx (item 0) lvl hp cs co sp with
          startAt := 4 * 0 + 5, hTitlePrepended := true,
          chunks := [padx 0], curSnippet := [] } := by
  have e1 : splitLoop (fuel + (4 * 0 + 3)) (listCtx (item 0) lvl hp cs co sp)
      = splitLoop (fuel + 2) (onListItem (fuel + 2) (listCtx (item 0) lvl hp cs co sp)) := by
    show splitLoop ((fuel + 2) + 1) _ = _
    exact splitLoop_succ_listItemOpen _ _ (by simp [listCtx, item]) (by simp [listCtx, item])
  have e2 : onListItem (fuel + 2) (listCtx (item 0) lvl hp cs co sp)
      = { listItemLoop (fuel + 1) 4
            { listCtx (item 0) lvl hp cs co sp with startAt := 1 } with startAt := 5 } := by
    show onListItem ((fuel + 1) + 1) _ = _
    rw [onListItem_succ]
    have h4 : indexOfCloseTag (listCtx (item 0) lvl hp cs co sp).tokens
        (listCtx (item 0) lvl hp cs co sp).startAt = 4 := ioct_item_zero 0
    rw [h4]
    rfl
  have e3 : listItemLoop (fuel + 1) 4 { listCtx (item 0) lvl hp cs co sp with startAt := 1 }
      = listItemLoop fuel 4
          (onMDListItemParagraph { listCtx (item 0) lvl hp cs co sp with startAt := 1 }) := by
    exact listItemLoop_succ_paragraphOpen _ _ _ (by simp) (by simp [listCtx, item])
  have e4 : onMDListItemParagraph { listCtx (item 0) lvl hp cs co sp with startAt := 1 }
      = { listCtx (item 0) lvl hp cs co sp with startAt := 4, curSnippet := gs "x" } := rfl
  have e5 : listItemLoop fuel 4
        { listCtx (item 0) lvl hp cs co sp with startAt := 4, curSnippet := gs "x" }
      = { listCtx (item 0) lvl hp cs co sp with startAt := 4, curSnippet := gs "x" } :=
    listItemLoop_exit _ _ _ (by simp)
  have e6 : splitLoop (fuel + 2)
        { listCtx (item 0) lvl hp cs co sp with startAt := 5, curSnippet := gs "x" }
      = { listCtx (item 0) lvl hp cs co sp with startAt := 5, curSnippet := gs "x" } :=
    splitLoop_exit _ _ (by simp [listCtx, item])
  rw [e1, e2, e3, e4, e5, e6]
  rw [applyToChunks_small _ (by simp [gs]) (by simpa [padx, gs] using hfit)]
  simp [listCtx, withTitle, padx, gs]

end Md

namespace Md

theorem run_item (e : Nat) :
    ∀ (fuel : Nat) (lvl : Int) (hp : Bool) (cs co : Int) (sp : SecondSplitter),
      1 ≤ lvl → ((padx e).length : Int) ≤ cs + co →
      applyToChunks (splitLoop (fuel + (4 * e + 3)) (listCtx (item e) lvl hp cs co sp))
        = { listCtx (item e) lvl hp cs co sp with
            startAt := 4 * e + 5, hTitlePrepended := true,
            chunks := [padx e], curSnippet := [] } := by
  induction e with
  | zero =>
    intro fuel lvl hp cs co sp _ hfit
    exact run_item_zero fuel lvl hp cs co sp hfit
  | succ e ih =>
    intro fuel lvl hp cs co sp hlvl hfit
    have hpadfit : ((padx e).length : Int) ≤ cs + co := by
      rw [padx_length e]
      rw [padx_length (e + 1)] at hfit
      push_cast at hfit ⊢
      linarith
    have hlen : (item (e + 1)).length = 4 * e + 9 := by
      rw [item_length]; omega
    have hm : fuel + (4 * (e + 1) + 3) = (fuel + (4 * e + 3)) + 3 + 1 := by ring
    rw [hm]
    have s1 : splitLoop ((fuel + (4 * e + 3)) + 3 + 1) (listCtx (item (e + 1)) lvl hp cs co sp)
        = splitLoop ((fuel + (4 * e + 3)) + 3)
            (onListItem ((fuel + (4 * e + 3)) + 3) (listCtx (item (e + 1)) lvl hp cs co sp)) := by
      apply splitLoop_succ_listItemOpen
      · simp [listCtx, hlen]
      · simp [listCtx, item_succ_eq]
    have hioct0 : indexOfCloseTag (item (e + 1)) 0 = 4 * e + 8 := by
      rw [ioct_item_zero]; omega
    have s2 : onListItem ((fuel + (4 * e + 3)) + 3) (listCtx (item (e + 1)) lvl hp cs co sp)
        = { listItemLoop ((fuel + (4 * e + 3)) + 2) (4 * e + 8)
              { listCtx (item (e + 1)) lvl hp cs co sp with startAt := 1 } with
            startAt := 4 * e + 8 + 1 } := by
      show onListItem ((fuel + (4 * e + 3)) + 2 + 1) _ = _
      rw [onListItem_succ]
      have hx : indexOfCloseTag (listCtx (item (e + 1)) lvl hp cs co sp).tokens
          (listCtx (item (e + 1)) lvl hp cs co sp).startAt = 4 * e + 8 := hioct0
      rw [hx]
      rfl
    have s3 : listItemLoop ((fuel + (4 * e + 3)) + 2) (4 * e + 8)
            { listCtx (item (e + 1)) lvl hp cs co sp with startAt := 1 }
        = listItemLoop ((fuel + (4 * e + 3)) + 1) (4 * e + 8)
            (onMDBulletList ((fuel + (4 * e + 3)) + 1)
              { listCtx (item (e + 1)) lvl hp cs co sp with startAt := 1 }) := by
      show listItemLoop ((fuel + (4 * e + 3)) + 1 + 1) _ _ = _
      apply listItemLoop_succ_bulletListOpen
      · simp
      · simp [listCtx, item_succ_eq]
    have hioct1 : indexOfCloseTag (item (e + 1)) 1 = 4 * e + 7 := ioct_item_succ_one e
    have hdrop2 : (item (e + 1)).drop 2 = item e ++ [.bulletListClose, .listItemClose] := by
      rw [item_succ_eq]; rfl
    have htake : (item e ++ [Token.bulletListClose, Token.listItemClose]).take (4 * e + 5)
        = item e := List.take_left' (item_length e)
    have ihx := ih fuel (lvl + 1) hp cs co sp (by linarith) hpadfit
    have s4 : onMDBulletList ((fuel + (4 * e + 3)) + 1)
          { listCtx (item (e + 1)) lvl hp cs co sp with startAt := 1 }
        = { listCtx (item (e + 1)) lvl hp cs co sp with
            startAt := 4 * e + 8, curSnippet := padx (e + 1) } := by
      rw [onMDBulletList]
      simp only [listCtx, hioct1, hdrop2, clone]
      rw [show 4 * e + 7 - 1 + 1 - (1 + 1) = 4 * e + 5 from by omega, htake]
      simp only [listCtx] at ihx
      rw [ihx]
      have hgt : ((lvl + 1 : Int) > 1) := by linarith
      simp only [List.foldl_cons, List.foldl_nil, if_pos hgt, prefixLines_padx]
      rw [joinSnippet_empty _ rfl]
      simp
    rw [s1, s2, s3, s4]
    rw [listItemLoop_exit _ _ _ (by simp [listCtx])]
    rw [splitLoop_exit _ _ (by simp [listCtx, hlen])]
    rw [applyToChunks_small _ (by simpa [listCtx] using padx_ne_nil (e + 1))
      (by simpa [listCtx] using hfit)]
    simp [listCtx, withTitle]
    omega

end Md

namespace Md

theorem run_nest (e fuel : Nat) (cs co : Int) (sp : SecondSplitter)
    (hfit : ((padx e).length : Int) ≤ cs + co) :
    applyToChunks (splitLoop (fuel + (4 * e + 5))
        (initCtx ⟨cs, co, sp⟩ (nest (e + 1))))
      = { initCtx ⟨cs, co, sp⟩ (nest (e + 1)) with
          startAt := 4 * e + 7, hTitlePrepended := true,
          chunks := [padx e], curSnippet := [] } := by
  have hm : fuel + (4 * e + 5) = ((fuel + (4 * e + 3)) + 1) + 1 := by ring
  rw [hm]
  have hdrop1 : (nest (e + 1)).drop 1 = item e ++ [Token.bulletListClose] := by
    rw [nest_eq]
    rfl
  have htake1 : (item e ++ [Token.bulletListClose]).take (4 * e + 5) = item e :=
    List.take_left' (item_length e)
  have s1 : splitLoop (((fuel + (4 * e + 3)) + 1) + 1) (initCtx ⟨cs, co, sp⟩ (nest (e + 1)))
      = splitLoop ((fuel + (4 * e + 3)) + 1)
          (onMDBulletList ((fuel + (4 * e + 3)) + 1) (initCtx ⟨cs, co, sp⟩ (nest (e + 1)))) := by
    apply splitLoop_succ_bulletListOpen
    · simp [initCtx, nest_length]
    · simp [initCtx, nest_eq]
  have ihx := run_item e fuel 1 false cs co sp (le_refl 1) hfit
  have s2 : onMDBulletList ((fuel + (4 * e + 3)) + 1) (initCtx ⟨cs, co, sp⟩ (nest (e + 1)))
      = { initCtx ⟨cs, co, sp⟩ (nest (e + 1)) with
          startAt := 4 * e + 7, curSnippet := padx e } := by
    rw [onMDBulletList]
    simp only [initCtx, ioct_nest, clone, hdrop1]
    rw [show 4 * e + 6 - 1 + 1 - (0 + 1) = 4 * e + 5 from by omega, htake1]
    simp only [listCtx] at ihx
    rw [show ((0 : Int) + 1) = 1 from by ring]
    rw [ihx]
    simp only [List.foldl_cons, List.foldl_nil]
    rw [if_neg (by simp)]
    rw [joinSnippet_empty _ rfl]
    simp
  rw [s1, s2]
  rw [splitLoop_exit _ _ (by simp [initCtx, nest_length])]
  rw [applyToChunks_small _ (by simpa [initCtx] using padx_ne_nil e)
    (by simpa [initCtx] using hfit)]
  simp [initCtx, withTitle]

end Md

namespace Md

theorem withTitle_ne_nil (h c : GoStr) (hc : c ≠ []) : withTitle h c ≠ [] := by
  unfold withTitle
  split
  · exact hc
  · simp [gs]

theorem applyToChunks_no_empty (mc : MDContext) (h : [] ∉ mc.chunks) :
    [] ∉ (applyToChunks mc).chunks := by
  unfold applyToChunks
  generalize (if (mc.curSnippet.length : Int) ≤ mc.chunkSize + mc.chunkOverlap
      then [mc.curSnippet] else (mc.secondSplitter mc.curSnippet).1) = pieces
  dsimp only
  split
  next hcond =>
    simp only [List.mem_append, List.mem_singleton]
    rintro (hin | hnil)
    · exact h hin
    · exact hcond.2.1 hnil.symm
  next =>
    simp only [applyFold_eq, List.mem_append, List.mem_map]
    rintro (hin | ⟨c, hcf, hwt⟩)
    · exact h hin
    · have hcne : c ≠ [] := by
        have := List.of_mem_filter hcf
        simpa [List.isEmpty_iff] using this
      exact withTitle_ne_nil _ _ hcne hwt

theorem joinSnippet_no_empty (mc : MDContext) (s : GoStr) (h : [] ∉ mc.chunks) :
    [] ∉ (joinSnippet mc s).chunks := by
  unfold joinSnippet
  split
  · exact h
  · split
    · exact applyToChunks_no_empty mc h
    · exact h

theorem foldl_no_empty {α : Type} (f : MDContext → α → MDContext)
    (hf : ∀ mc a, [] ∉ mc.chunks → [] ∉ (f mc a).chunks) :
    ∀ (l : List α) (mc : MDContext), [] ∉ mc.chunks → [] ∉ (l.foldl f mc).chunks := by
  intro l
  induction l with
  | nil => intro mc h; exact h
  | cons a rest ih => intro mc h; exact ih (f mc a) (hf mc a h)

end Md

namespace Md

theorem onMDHeader_no_empty (mc : MDContext) (h : [] ∉ mc.chunks) :
    [] ∉ (onMDHeader mc).chunks := by
  unfold onMDHeader
  dsimp only
  split
  · split
    · exact applyToChunks_no_empty mc h
    · exact h
  · exact h

theorem onMDParagraph_no_empty (mc : MDContext) (h : [] ∉ mc.chunks) :
    [] ∉ (onMDParagraph mc).chunks := by
  unfold onMDParagraph
  dsimp only
  split <;> exact h

theorem onMDListItemParagraph_no_empty (mc : MDContext) (h : [] ∉ mc.chunks) :
    [] ∉ (onMDListItemParagraph mc).chunks := by
  unfold onMDListItemParagraph
  dsimp only
  split
  · split <;> exact joinSnippet_no_empty _ _ h
  · exact h

theorem splitTableRows_no_empty (mc : MDContext) (header : List GoStr)
    (bodies : List (List GoStr)) (h : [] ∉ mc.chunks) :
    [] ∉ (splitTableRows mc header bodies).chunks := by
  unfold splitTableRows
  dsimp only
  split <;> split <;>
    first
      | exact applyToChunks_no_empty _ (joinSnippet_no_empty _ _ h)
      | exact foldl_no_empty _
          (fun mc a hh => applyToChunks_no_empty _ (joinSnippet_no_empty _ _ hh)) _ _ h

theorem onMDTable_no_empty (mc : MDContext) (h : [] ∉ mc.chunks) :
    [] ∉ (onMDTable mc).chunks := by
  unfold onMDTable
  dsimp only
  split
  · exact splitTableRows_no_empty _ _ _ h
  · exact h

theorem onMDQuote_no_empty (fuel : Nat) (mc : MDContext) (h : [] ∉ mc.chunks) :
    [] ∉ (onMDQuote fuel mc).chunks := by
  cases fuel with
  | zero => exact h
  | succ fuel =>
    unfold onMDQuote
    dsimp only
    split
    · exact applyToChunks_no_empty _
        (foldl_no_empty _ (fun mc a hh => joinSnippet_no_empty _ _ hh) _ _ h)
    · exact h

theorem onMDBulletList_no_empty (fuel : Nat) (mc : MDContext) (h : [] ∉ mc.chunks) :
    [] ∉ (onMDBulletList fuel mc).chunks := by
  cases fuel with
  | zero => exact h
  | succ fuel =>
    unfold onMDBulletList
    dsimp only
    exact foldl_no_empty _ (fun mc a hh => joinSnippet_no_empty _ _ hh) _ _ h

theorem onMDOrderedList_no_empty (fuel : Nat) (mc : MDContext) (h : [] ∉ mc.chunks) :
    [] ∉ (onMDOrderedList fuel mc).chunks := by
  cases fuel with
  | zero => exact h
  | succ fuel =>
    unfold onMDOrderedList
    dsimp only
    exact foldl_no_empty _ (fun mc a hh => joinSnippet_no_empty _ _ hh) _ _ h

theorem listItemLoop_no_empty (fuel : Nat) :
    ∀ (endAt : Nat) (mc : MDContext), [] ∉ mc.chunks → [] ∉ (listItemLoop fuel endAt mc).chunks := by
  induction fuel with
  | zero => intro endAt mc h; exact h
  | succ fuel ih =>
    intro endAt mc h
    unfold listItemLoop
    dsimp only
    split
    · apply ih
      split
      · exact onMDListItemParagraph_no_empty _ h
      · exact onMDBulletList_no_empty _ _ h
      · exact onMDOrderedList_no_empty _ _ h
      · exact h
    · exact h

theorem onListItem_no_empty (fuel : Nat) (mc : MDContext) (h : [] ∉ mc.chunks) :
    [] ∉ (onListItem fuel mc).chunks := by
  cases fuel with
  | zero => exact h
  | succ fuel =>
    unfold onListItem
    dsimp only
    exact listItemLoop_no_empty _ _ _ h

theorem splitLoop_no_empty (fuel : Nat) :
    ∀ (mc : MDContext), [] ∉ mc.chunks → [] ∉ (splitLoop fuel mc).chunks := by
  induction fuel with
  | zero => intro mc h; exact h
  | succ fuel ih =>
    intro mc h
    unfold splitLoop
    dsimp only
    split
    · split
      · exact h
      · apply ih
        split
        · exact onMDHeader_no_empty _ h
        · exact onMDTable_no_empty _ h
        · exact onMDParagraph_no_empty _ h
        · exact onMDQuote_no_empty _ _ h
        · exact onMDBulletList_no_empty _ _ h
        · exact onMDOrderedList_no_empty _ _ h
        · exact onListItem_no_empty _ _ h
        · exact h
    · exact h

end Md

namespace Md

/-- A rendered header block (header row plus separator row) is never the
empty string. -/
theorem headerBlockMD_ne_nil (hd : List GoStr) : headerBlockMD hd ≠ [] := by
  simp [headerBlockMD, gs]

/-- A rendered header-block-plus-row snippet is never the empty string. -/
theorem rowSnippet_ne_nil (hd : List GoStr) (row : List GoStr) :
    headerBlockMD hd ++ gs "\n" ++ rowMD row ≠ [] := by
  simp [headerBlockMD, gs]

end Md

namespace Md

/-! Claim theorems. -/

/-- Claim C1, counterexample: the document holding only a fenced code block
is non-empty, its structural walk yields zero chunks, and `SplitText`
returns the empty chunk sequence — no whole-document fallback runs. -/
theorem splitText_fence_only_empty :
    fenceOnlyTokens ≠ [] ∧ cfg64.SplitText fenceOnlyTokens = ([], none) := by
  constructor
  · decide
  · decide

/-- Claim C1 (amended): `SplitText` returns the walker's chunk sequence
unchanged with a nil error; when the structural walk yields zero chunks the
result is the empty sequence, with no fallback to the secondary splitter on
the raw input. -/
theorem splitText_no_fallback (sp : MarkdownHeaderTextSplitter) (tokens : List Token)
    (h : (splitTextCtx (splitFuel tokens) (initCtx sp tokens)).chunks = []) :
    sp.SplitText tokens = ([], none) := by
  unfold MarkdownHeaderTextSplitter.SplitText
  rw [h]

/-- Witness for C1 at the fence-only document. -/
theorem splitText_no_fallback_witness :
    (splitTextCtx (splitFuel fenceOnlyTokens) (initCtx cfg64 fenceOnlyTokens)).chunks = []
    ∧ cfg64.SplitText fenceOnlyTokens = ([], none) :=
  ⟨by decide, splitText_no_fallback cfg64 fenceOnlyTokens (by decide)⟩

/-- Claim C2, counterexample: the configured secondary splitter reports an
error on every call, the walk does invoke it (its piece appears in the
output), and yet `SplitText` returns a nil error. -/
theorem splitText_error_discarded_counterexample :
    (spErr (gs "abc")).2 = some (gs "boom")
    ∧ cfgErr.SplitText longItemListTokens = ([gs "PIECE"], none) := by
  constructor
  · decide
  · decide

/-- Claim C2 (amended): the error returned by the secondary splitter inside
`applyToChunks` is discarded (`chunks, _ = ...`); `SplitText` returns a nil
error for every input and configuration. -/
theorem splitText_error_always_none (sp : MarkdownHeaderTextSplitter)
    (tokens : List Token) : (sp.SplitText tokens).2 = none := rfl

/-- Claim C3 (code bug): for the header-only document `"### H"` the header
is set and no content chunk is produced, yet `SplitText` emits nothing: an
empty pending snippet yields the one-element piece list `[""]`, so the
header-only branch of `applyToChunks` (whose own comment promises to emit
the header title) never fires, and the empty chunk is skipped. -/
theorem header_only_section_emits_nothing :
    cfg64.SplitText headerOnlyTokens = ([], none) := by decide

/-- Claim C4 (code bug): for `"### H\n\n- a\n- b\n"` with `chunkSize = 64`,
`chunkOverlap = 32` the code returns the single chunk `"### H\na\nb"` — the
`"- "` markers are lost and the items are merged, because `clone` drops the
`bulletList` flag (and `hTitle`), contradicting the repository's own test
which expects `["### H\n- a", "### H\n- b"]`. -/
theorem bullet_list_scenario_output :
    cfg64.SplitText c4tokens = ([gs "### H\na\nb"], none) := by decide

/-- Claim C5, counterexample: for a fence followed by a bullet list, the
close-tag search from the fence returns the end of the token list (index 8,
not 1), and the supported list content after the fence is dropped:
`SplitText` returns no chunks at all. -/
theorem fence_drops_following_content :
    indexOfCloseTag fenceThenListTokens 0 = 8
    ∧ (cfg64.SplitText fenceThenListTokens).1 = [] := by
  constructor
  · decide
  · decide

/-- Claim C5 (amended): for a token whose kind has no entry in the
open→close pairing table, and likewise for a fence (which is paired with
itself, so the counter is incremented before every close comparison), the
close-tag search never finds a close and returns the end of the token
list; the walker therefore advances past the whole remaining region, not
past one token. -/
theorem unmatched_token_skips_to_end (tokens : List Token) (startAt : Nat) (t : Token)
    (ht : tokens[startAt]? = some t)
    (hk : closeTypes (kindOf t) = none ∨ kindOf t = .fence) :
    indexOfCloseTag tokens startAt = tokens.length :=
  indexOfCloseTag_unmatched tokens startAt t ht hk

/-- Witness for C5 at the fence of `fenceThenListTokens`. -/
theorem unmatched_token_skips_to_end_witness :
    indexOfCloseTag fenceThenListTokens 0 = fenceThenListTokens.length :=
  unmatched_token_skips_to_end fenceThenListTokens 0 (.fence (gs "c"))
    (by decide) (by decide)

/-- Claim C6, counterexample: a table with a non-blank header and exactly
one body row, split with `chunkSize = 1`, `chunkOverlap = 0` and a
secondary splitter returning the two pieces `"p"`, `"q"`, produces two
chunks, not one chunk per body row, and neither chunk is the header block
plus a row: table rows do pass through the shared size-based re-split. -/
theorem table_row_chunks_counterexample :
    cfgTwo.SplitText smallTableTokens = ([gs "p", gs "q"], none)
    ∧ (cfgTwo.SplitText smallTableTokens).1.length ≠ 1 := by
  constructor
  · decide
  · decide

/-- Claim C6 (amended): for a table whose header has a non-empty cell (no
promotion) and at least one body row, provided the pending snippet is
empty on entry and each rendered header-block-plus-row snippet fits within
`chunkSize + chunkOverlap`, the emitted chunks are exactly one per body
row, each the header block (header row and `---` separator row) plus that
single row, with the active header title prepended. -/
theorem table_row_chunks_when_fitting (mc : MDContext) (header : List GoStr)
    (bodies : List (List GoStr))
    (hh : header.any (fun h => !h.isEmpty) = true)
    (hb : bodies ≠ [])
    (hs : mc.curSnippet = [])
    (hfit : ∀ row ∈ bodies,
      (((headerBlockMD header ++ gs "\n" ++ rowMD row).length : Int)
        ≤ mc.chunkSize + mc.chunkOverlap)) :
    (splitTableRows mc header bodies).chunks
      = mc.chunks ++ bodies.map
          (fun row => withTitle mc.hTitle (headerBlockMD header ++ gs "\n" ++ rowMD row))
    ∧ (splitTableRows mc header bodies).chunks.length
      = mc.chunks.length + bodies.length := by
  have hmain : (splitTableRows mc header bodies).chunks
      = mc.chunks ++ bodies.map
          (fun row => withTitle mc.hTitle (headerBlockMD header ++ gs "\n" ++ rowMD row)) := by
    unfold splitTableRows
    simp only [hh, Bool.not_true, Bool.false_and, Bool.false_eq_true, if_false]
    rw [if_neg (by simpa [List.isEmpty_iff] using hb)]
    rw [emitFold (fun row => headerBlockMD header ++ gs "\n" ++ rowMD row) bodies mc hs
      (fun row hrow => ⟨rowSnippet_ne_nil header row, hfit row hrow⟩)]
  refine ⟨hmain, ?_⟩
  rw [hmain]
  simp

/-- Witness for C6: a one-column table with two body rows. -/
theorem table_row_chunks_when_fitting_witness :
    (splitTableRows (initCtx cfg64 []) [gs "h"] [[gs "v"], [gs "w"]]).chunks
      = [gs "| h |\n| --- |\n| v |", gs "| h |\n| --- |\n| w |"] := by
  have h := table_row_chunks_when_fitting (initCtx cfg64 []) [gs "h"] [[gs "v"], [gs "w"]]
    (by decide) (by decide) (by decide) (by decide)
  rw [h.1]
  decide

end Md

namespace Md

/-- Claim C7, counterexample: closing an empty pending snippet (here with
no header set) emits nothing at all, while the claim as stated says every
within-budget close emits the snippet as a single chunk. -/
theorem close_empty_snippet_counterexample :
    (applyToChunks (initCtx cfg64 [])).chunks
      ≠ (initCtx cfg64 []).chunks
          ++ [withTitle (initCtx cfg64 []).hTitle (initCtx cfg64 []).curSnippet] := by
  decide

/-- Claim C7 (amended): on close, a non-empty pending snippet within
`chunkSize + chunkOverlap` is emitted as one chunk with the header title
prepended (when non-empty) and the header-emitted flag set; an oversized
snippet is handed to the secondary splitter and — provided the splitter
returns at least one piece — every non-empty piece becomes a separate
chunk with the title prepended, the flag being set as soon as one piece is
non-empty; an empty snippet (under a non-negative budget) emits nothing
and leaves the flag unchanged. -/
theorem close_snippet_behaviour (mc : MDContext) :
    (mc.curSnippet ≠ [] →
      (mc.curSnippet.length : Int) ≤ mc.chunkSize + mc.chunkOverlap →
      applyToChunks mc
        = { mc with chunks := mc.chunks ++ [withTitle mc.hTitle mc.curSnippet],
                    hTitlePrepended := true, curSnippet := [] })
    ∧ (¬ (mc.curSnippet.length : Int) ≤ mc.chunkSize + mc.chunkOverlap →
      (mc.secondSplitter mc.curSnippet).1 ≠ [] →
      applyToChunks mc
        = { mc with
            chunks := mc.chunks ++
              (((mc.secondSplitter mc.curSnippet).1.filter (fun c => !c.isEmpty)).map
                (withTitle mc.hTitle)),
            hTitlePrepended := mc.hTitlePrepended ||
              ((mc.secondSplitter mc.curSnippet).1.any (fun c => !c.isEmpty)),
            curSnippet := [] })
    ∧ (mc.curSnippet = [] → (0 : Int) ≤ mc.chunkSize + mc.chunkOverlap →
      applyToChunks mc = { mc with curSnippet := [] }) :=
  ⟨fun h1 h2 => applyToChunks_small mc h1 h2,
   fun h1 h2 => applyToChunks_oversized mc h1 h2,
   fun h1 h2 => applyToChunks_empty mc h1 h2⟩

/-- Witness for C7: closing the snippet `"abc"` under header `"T"`. -/
theorem close_snippet_behaviour_witness :
    applyToChunks chunkCloseCtx
      = { chunkCloseCtx with
          chunks := chunkCloseCtx.chunks
            ++ [withTitle chunkCloseCtx.hTitle chunkCloseCtx.curSnippet],
          hTitlePrepended := true, curSnippet := [] }
    ∧ withTitle chunkCloseCtx.hTitle chunkCloseCtx.curSnippet = gs "T\nabc" :=
  ⟨(close_snippet_behaviour chunkCloseCtx).1 (by decide) (by decide), by decide⟩

/-- Claim C8, counterexample: a table whose declared header cells are all
empty and that has exactly one body row still emits one chunk (the
promoted header block alone); the chunks do not cover only the remaining
(zero) rows. -/
theorem table_header_promotion_counterexample :
    cfg64.SplitText blankHeaderTableTokens = ([gs "| a | b |\n| --- | --- |"], none)
    ∧ (cfg64.SplitText blankHeaderTableTokens).1.length ≠ 0 := by
  constructor
  · decide
  · decide

/-- Claim C8 (amended): when every declared header cell is empty and a body
row exists, the first body row is promoted to header and removed from the
body; starting from an empty pending snippet and with the rendered
snippets within `chunkSize + chunkOverlap`, one chunk is emitted per
remaining row (header block plus that row), and when no row remains a
single chunk holding just the promoted header block is emitted; a header
with at least one non-empty cell is kept as-is and is not promoted. -/
theorem table_header_promotion (mc : MDContext) (header r : List GoStr)
    (rest : List (List GoStr)) (hs : mc.curSnippet = []) :
    (header.any (fun h => !h.isEmpty) = false → rest = [] →
      ((headerBlockMD r).length : Int) ≤ mc.chunkSize + mc.chunkOverlap →
      splitTableRows mc header (r :: rest)
        = { mc with chunks := mc.chunks ++ [withTitle mc.hTitle (headerBlockMD r)],
                    hTitlePrepended := true, curSnippet := [] })
    ∧ (header.any (fun h => !h.isEmpty) = false → rest ≠ [] →
      (∀ row ∈ rest, (((headerBlockMD r ++ gs "\n" ++ rowMD row).length : Int)
        ≤ mc.chunkSize + mc.chunkOverlap)) →
      (splitTableRows mc header (r :: rest)).chunks
        = mc.chunks ++ rest.map
            (fun row => withTitle mc.hTitle (headerBlockMD r ++ gs "\n" ++ rowMD row)))
    ∧ (header.any (fun h => !h.isEmpty) = true →
      (∀ row ∈ r :: rest, (((headerBlockMD header ++ gs "\n" ++ rowMD row).length : Int)
        ≤ mc.chunkSize + mc.chunkOverlap)) →
      (splitTableRows mc header (r :: rest)).chunks
        = mc.chunks ++ (r :: rest).map
            (fun row => withTitle mc.hTitle (headerBlockMD header ++ gs "\n" ++ rowMD row))) := by
  refine ⟨?_, ?_, ?_⟩
  · intro hblank hrest hfit
    subst hrest
    unfold splitTableRows
    simp only [hblank, Bool.not_false, Bool.true_and, List.isEmpty_cons, Bool.not_true,
      if_true]
    rw [if_pos (by simp)]
    exact emitStep mc (headerBlockMD r) hs (headerBlockMD_ne_nil r) hfit
  · intro hblank hrest hfit
    unfold splitTableRows
    simp only [hblank, Bool.not_false, Bool.true_and, List.isEmpty_cons, Bool.not_true,
      if_true]
    rw [if_neg (by simpa [List.isEmpty_iff] using hrest)]
    simp only [List.headD_cons, List.tail_cons]
    rw [emitFold (fun row => headerBlockMD r ++ gs "\n" ++ rowMD row) rest mc hs
      (fun row hrow => ⟨rowSnippet_ne_nil r row, hfit row hrow⟩)]
  · intro hh hfit
    unfold splitTableRows
    simp only [hh, Bool.not_true, Bool.false_and, Bool.false_eq_true, if_false]
    rw [if_neg (by simp)]
    rw [emitFold (fun row => headerBlockMD header ++ gs "\n" ++ rowMD row) (r :: rest) mc hs
      (fun row hrow => ⟨rowSnippet_ne_nil header row, hfit row hrow⟩)]

/-- Witness for C8: an all-blank two-cell header with two body rows; the
first row is promoted, the second forms the single chunk. -/
theorem table_header_promotion_witness :
    (splitTableRows (initCtx cfg64 []) [[], []] ([gs "a", gs "b"] :: [[gs "c", gs "d"]])).chunks
      = [gs "| a | b |\n| --- | --- |\n| c | d |"] := by
  have h := (table_header_promotion (initCtx cfg64 []) [[], []] [gs "a", gs "b"]
    [[gs "c", gs "d"]] (by decide)).2.1 (by decide) (by decide) (by decide)
  rw [h]
  decide

/-- Claim C9 (confirmed): in the nested bullet list family `nest d`
(`d ≥ 1` levels, innermost item text `"x"`), indentation is additive at
two spaces per level beyond the outermost: the emitted line carries
exactly `2 * (d - 1)` leading spaces (`padx (d - 1)`) by the time it
reaches the output — at depth 3 that is four spaces, not six. -/
theorem nested_list_indentation (d : Nat) (cs co : Int) (sp : SecondSplitter)
    (hd : 1 ≤ d) (hfit : ((padx (d - 1)).length : Int) ≤ cs + co) :
    (MarkdownHeaderTextSplitter.SplitText ⟨cs, co, sp⟩ (nest d)).1 = [padx (d - 1)] := by
  obtain ⟨e, rfl⟩ : ∃ e, d = e + 1 := ⟨d - 1, by omega⟩
  simp only [Nat.add_sub_cancel] at hfit ⊢
  unfold MarkdownHeaderTextSplitter.SplitText splitTextCtx
  have hbig : 4 * e + 5 ≤ splitFuel (nest (e + 1)) := by
    rw [splitFuel, nest_length]
    nlinarith
  obtain ⟨k, hk⟩ : ∃ k, splitFuel (nest (e + 1)) = k + (4 * e + 5) :=
    ⟨splitFuel (nest (e + 1)) - (4 * e + 5), by omega⟩
  rw [hk, run_nest e k cs co sp hfit]

/-- Witness for C9 at depth 3 with the test configuration: the emitted
chunk is `"    x"` — four leading spaces. -/
theorem nested_list_indentation_witness :
    (MarkdownHeaderTextSplitter.SplitText ⟨64, 32, spNone⟩ (nest 3)).1 = [gs "    x"] := by
  have h := nested_list_indentation 3 64 32 spNone (by decide) (by decide)
  rw [h]
  decide

/-- Claim C10 (confirmed): no element of the chunk sequence returned by
`SplitText` is the empty string, for every input and configuration: the
emitter skips empty pieces and otherwise appends either a non-empty header
title or a non-empty (possibly title-prefixed) chunk. -/
theorem splitText_no_empty_chunks (sp : MarkdownHeaderTextSplitter)
    (tokens : List Token) : [] ∉ (sp.SplitText tokens).1 := by
  unfold MarkdownHeaderTextSplitter.SplitText splitTextCtx
  exact applyToChunks_no_empty _ (splitLoop_no_empty _ _ (by simp [initCtx]))

end Md
